import Mathlib

unseal Rat.add Rat.mul Rat.sub Rat.inv Rat.ofScientific List.merge List.mergeSort

/-!
Shallow embedding of the profiling-analysis core of this repository
(`tools/profiling-analysis/analyze.py` and `tools/profiling-analysis/compare.py`).

Millisecond durations (Python floats) are modelled as exact rationals `ℚ`;
Python dicts are modelled as insertion-ordered association lists so that
iteration order, in-place update and last-write-wins semantics match CPython
dict behaviour.  Fallible JSON field access (`dict.get` with a default) is
modelled with `Option` fields plus `Option.getD`.
-/

namespace Profiling

/-! ## Insertion-ordered association maps (CPython `dict` semantics) -/

/-- Lookup in an insertion-ordered association list (Python `d[k]` / `d.get(k)`). -/
def alookup {κ β : Type} [DecidableEq κ] : List (κ × β) → κ → Option β
  | [], _ => none
  | p :: rest, k => if p.1 = k then some p.2 else alookup rest k

/-- Assignment `d[k] = v` on an insertion-ordered association list: an existing
key keeps its position (in-place update), a new key is appended at the end. -/
def ainsert {κ β : Type} [DecidableEq κ] : List (κ × β) → κ → β → List (κ × β)
  | [], k, v => [(k, v)]
  | p :: rest, k, v => if p.1 = k then (k, v) :: rest else p :: ainsert rest k v

/-! ## Raw trace data model (profiler v5 wire schema, `analyze.py`) -/

/-- Dual wire encoding of a per-fiber map: either a JSON object keyed by fiber
id, or a list of `[key, value]` pairs.  In the list form, an element that is
not a two-or-more-element list (modelled as `none`) is silently dropped by
`iter_pairs`. -/
inductive FiberMap (α : Type) where
  | asDict : List (Int × α) → FiberMap α
  | asList : List (Option (Int × α)) → FiberMap α

/-- Normalization `iter_pairs` of `analyze.py`: both wire encodings become an
ordered list of `(fiber_id, value)` pairs; malformed list elements are dropped. -/
def iter_pairs {α : Type} : FiberMap α → List (Int × α)
  | FiberMap.asDict entries => entries
  | FiberMap.asList entries => entries.filterMap id

/-- Raw snapshot entry (`displayName` / `name` / `compiledWithForget` JSON
fields, each possibly absent). -/
structure RawSnapshot where
  displayName : Option String := none
  name : Option String := none
  compiledWithForget : Option Bool := none

/-- Raw commit entry; each field may be absent (`commit.get(..., default)`). -/
structure RawCommit where
  timestamp : Option ℚ := none
  priorityLevel : Option String := none
  fiberSelfDurations : Option (FiberMap ℚ) := none
  fiberActualDurations : Option (FiberMap ℚ) := none

/-- Raw root entry of `dataForRoots`. -/
structure RawRoot where
  snapshots : Option (FiberMap RawSnapshot) := none
  commitData : Option (List RawCommit) := none

/-- Raw top-level trace document; `dataForRoots` may be absent. -/
structure RawTrace where
  dataForRoots : Option (List RawRoot) := none

/-! ## Aggregated data model (`analyze.py` dataclasses) -/

/-- The `ComponentStats` dataclass of `analyze.py`. -/
structure ComponentStats where
  name : String
  fiber_id : Int
  render_count : Nat := 0
  total_self_time : ℚ := 0
  max_self_time : ℚ := 0
  total_actual_time : ℚ := 0
  max_actual_time : ℚ := 0
  compiled_with_forget : Bool := false
deriving DecidableEq

/-- The `CommitInfo` dataclass of `analyze.py`. -/
structure CommitInfo where
  index : Nat
  timestamp : ℚ
  duration : ℚ
  priority_level : String
  num_components : Nat
  top_components : List (String × ℚ)
deriving DecidableEq, Inhabited

/-! ## Snapshot resolver (`build_snapshot_map`) -/

/-- Python truthiness-based `a or b` on optional strings: `a` wins unless it is
absent or empty. -/
def pyOrStr (a b : Option String) : Option String :=
  match a with
  | some s => if s = "" then b else some s
  | none => b

/-- Fiber-id indexed snapshot table. -/
abbrev SnapMap : Type := List (Int × RawSnapshot)

/-- Embedding of `build_snapshot_map`: normalize each root's snapshot table and
store `snap["name"] = snap.get("displayName") or snap.get("name")`; later roots
overwrite earlier entries sharing a fiber id (last write wins). -/
def build_snapshot_map (t : RawTrace) : SnapMap :=
  (t.dataForRoots.getD []).foldl
    (fun snaps root =>
      (iter_pairs (root.snapshots.getD (FiberMap.asList []))).foldl
        (fun snaps p =>
          ainsert snaps p.1 { p.2 with name := pyOrStr p.2.displayName p.2.name })
        snaps)
    []

/-- Resolved display name used at component creation:
`snap.get("name") or f"Unknown#{fid}"` over the normalized snapshot table. -/
def resolvedName (snaps : SnapMap) (fid : Int) : String :=
  match (alookup snaps fid).bind (fun s => s.name) with
  | some s => if s = "" then "Unknown#" ++ toString fid else s
  | none => "Unknown#" ++ toString fid

/-- Resolved optimizer flag: `snap.get("compiledWithForget", False)`. -/
def compiledFor (snaps : SnapMap) (fid : Int) : Bool :=
  ((alookup snaps fid).bind (fun s => s.compiledWithForget)).getD false

/-- Freshly created `ComponentStats` for a fiber id first encountered during
aggregation. -/
def mkStats (snaps : SnapMap) (fid : Int) : ComponentStats :=
  { name := resolvedName snaps fid
    fiber_id := fid
    compiled_with_forget := compiledFor snaps fid }

/-! ## Commit aggregator (`analyze`, lines 78–133) -/

/-- Fiber-id indexed component table (`components` dict of `analyze`). -/
abbrev CompMap : Type := List (Int × ComponentStats)

/-- State threaded through the `fiberSelfDurations` loop of one commit:
the component table, the running commit duration, and the commit's
top-component candidate list `commit_components`. -/
structure SelfState where
  comps : CompMap
  duration : ℚ
  cands : List (String × ℚ)

/-- One iteration of the self-durations loop (analyze.py lines 89–108):
create the component on first encounter; if the duration is strictly
positive, bump `render_count`/`total_self_time`/`max_self_time` and record
`(name, duration)` as a top-components candidate; always add the duration
to the commit total. -/
def selfStep (snaps : SnapMap) (st : SelfState) (p : Int × ℚ) : SelfState :=
  let fid := p.1
  let dur := p.2
  let comp := (alookup st.comps fid).getD (mkStats snaps fid)
  if 0 < dur then
    { comps := ainsert st.comps fid
        { comp with
            render_count := comp.render_count + 1
            total_self_time := comp.total_self_time + dur
            max_self_time := max comp.max_self_time dur }
      duration := st.duration + dur
      cands := st.cands ++ [(comp.name, dur)] }
  else
    { comps := ainsert st.comps fid comp
      duration := st.duration + dur
      cands := st.cands }

/-- The whole self-durations loop of one commit. -/
def process_self (snaps : SnapMap) (st : SelfState) (pairs : List (Int × ℚ)) : SelfState :=
  pairs.foldl (selfStep snaps) st

/-- One iteration of the `fiberActualDurations` loop (analyze.py lines 111–116):
inclusive times are accumulated only for fiber ids that already have a
`ComponentStats` entry; note the accumulation is unconditional in the sign
of the duration. -/
def actualStep (comps : CompMap) (p : Int × ℚ) : CompMap :=
  match alookup comps p.1 with
  | some comp =>
      ainsert comps p.1
        { comp with
            total_actual_time := comp.total_actual_time + p.2
            max_actual_time := max comp.max_actual_time p.2 }
  | none => comps

/-- Stable descending sort by self-time (`commit_components.sort(key=…,
reverse=True)`; Python `list.sort` is stable). -/
def sortCands (l : List (String × ℚ)) : List (String × ℚ) :=
  l.mergeSort (fun a b => decide (b.2 ≤ a.2))

/-- Processing of one commit: run the self-durations loop, then the
actual-durations loop, then emit the `CommitInfo` with the top five candidates
by self-time. -/
def processCommit (snaps : SnapMap) (comps : CompMap) (ci : Nat) (commit : RawCommit) :
    CompMap × CommitInfo :=
  let selfD := iter_pairs (commit.fiberSelfDurations.getD (FiberMap.asList []))
  let actualD := iter_pairs (commit.fiberActualDurations.getD (FiberMap.asList []))
  let st := process_self snaps { comps := comps, duration := 0, cands := [] } selfD
  let comps2 := actualD.foldl actualStep st.comps
  (comps2,
    { index := ci
      timestamp := commit.timestamp.getD 0
      duration := st.duration
      priority_level := commit.priorityLevel.getD "unknown"
      num_components := st.cands.length
      top_components := (sortCands st.cands).take 5 })

/-- Processing of one root: enumerate its `commitData` (commit indices restart
at 0 for every root) and thread the component table through. -/
def processRoot (snaps : SnapMap) (acc : CompMap × List CommitInfo) (root : RawRoot) :
    CompMap × List CommitInfo :=
  (root.commitData.getD []).enum.foldl
    (fun acc p =>
      let r := processCommit snaps acc.1 p.1 p.2
      (r.1, acc.2 ++ [r.2]))
    acc

/-- The aggregation phase of `analyze`: the component table and the ordered
commit sequence, concatenated across roots in root order. -/
def analyzeComponents (t : RawTrace) : CompMap × List CommitInfo :=
  (t.dataForRoots.getD []).foldl (processRoot (build_snapshot_map t)) ([], [])

/-! ## Statistics engine (`analyze`, lines 135–205) -/

/-- Ascending sort of the commit-duration series (`all_durations.sort()`). -/
def sortQ (l : List ℚ) : List ℚ := l.mergeSort

/-- Nearest-rank percentile over the ascending-sorted duration list:
`index = int(p/100 * n)` clamped above at `n-1`; returns 0 for an empty
series.  With `p : ℕ` the index is exactly `⌊p·n/100⌋`. -/
def percentile (sorted : List ℚ) (p : Nat) : ℚ :=
  if sorted.length = 0 then 0
  else sorted.getD (min (p * sorted.length / 100) (sorted.length - 1)) 0

/-- Python `max(list)` guarded by emptiness (`max(all_durations) if
all_durations else 0`). -/
def pymax : List ℚ → ℚ
  | [] => 0
  | x :: xs => xs.foldl max x

/-- Python `round(x, 2)` idealized over exact rationals: round to two decimal
places, ties to even. -/
def round2 (x : ℚ) : ℚ :=
  let y := x * 100
  let f := ⌊y⌋
  let r := if y - f < 1/2 then f
           else if 1/2 < y - f then f + 1
           else if f % 2 = 0 then f else f + 1
  (r : ℚ) / 100

/-- Duration-distribution histogram; fields correspond to the labels
"0ms", "1ms", "2ms", "3-5ms", "6-10ms", "11-16ms", "17-33ms", "34+ms". -/
structure Buckets where
  b0 : Nat := 0
  b1 : Nat := 0
  b2 : Nat := 0
  b3to5 : Nat := 0
  b6to10 : Nat := 0
  b11to16 : Nat := 0
  b17to33 : Nat := 0
  b34plus : Nat := 0
deriving DecidableEq

/-- Bucketing of one commit duration (fixed boundary chain of `analyze`). -/
def addBucket (b : Buckets) (d : ℚ) : Buckets :=
  if d < 0.5 then { b with b0 := b.b0 + 1 }
  else if d < 1.5 then { b with b1 := b.b1 + 1 }
  else if d < 2.5 then { b with b2 := b.b2 + 1 }
  else if d < 5.5 then { b with b3to5 := b.b3to5 + 1 }
  else if d < 10.5 then { b with b6to10 := b.b6to10 + 1 }
  else if d < 16.68 then { b with b11to16 := b.b11to16 + 1 }
  else if d < 33.5 then { b with b17to33 := b.b17to33 + 1 }
  else { b with b34plus := b.b34plus + 1 }

/-! ## Cluster detector (`analyze`, lines 167–204) -/

/-- The cluster scan: maintain the current run of consecutive commits with
duration above 10 ms; a failing commit flushes a run of length ≥ 3 as a
cluster and resets; a trailing run of length ≥ 3 is flushed at the end. -/
def findClusters (l : List CommitInfo) (cur : List CommitInfo) : List (List CommitInfo) :=
  match l with
  | [] => if 3 ≤ cur.length then [cur] else []
  | c :: rest =>
      if 10 < c.duration then findClusters rest (cur ++ [c])
      else (if 3 ≤ cur.length then [cur] else []) ++ findClusters rest []

/-- Cluster summary record emitted into the overall stats. -/
structure Cluster where
  start_commit : Nat
  end_commit : Nat
  size : Nat
  total_ms : ℚ
  avg_ms : ℚ
deriving DecidableEq, Inhabited

/-- Summary record of one detected cluster (`cl[0].index`, `cl[-1].index`, …). -/
def mkCluster (cl : List CommitInfo) : Cluster :=
  { start_commit := cl.headI.index
    end_commit := cl.getLastI.index
    size := cl.length
    total_ms := round2 ((cl.map (fun c => c.duration)).sum)
    avg_ms := round2 (((cl.map (fun c => c.duration)).sum) / (cl.length : ℚ)) }

/-- The `overall` summary dict of `analyze`. -/
structure OverallStats where
  total_commits : Nat := 0
  total_duration_ms : ℚ := 0
  avg_duration_ms : ℚ := 0
  median_duration_ms : ℚ := 0
  max_duration_ms : ℚ := 0
  p95_duration_ms : ℚ := 0
  p99_duration_ms : ℚ := 0
  dropped_frames : Nat := 0
  dropped_pct : ℚ := 0
  total_components : Nat := 0
  compiled_with_forget : Nat := 0
  duration_buckets : Buckets := {}
  clusters : List Cluster := []
deriving DecidableEq

/-- Embedding of `analyze`: returns `(overall, components, commits)`. -/
def analyze (t : RawTrace) : OverallStats × CompMap × List CommitInfo :=
  let ac := analyzeComponents t
  let components := ac.1
  let commits := ac.2
  let all_durations := commits.map (fun c => c.duration)
  let total_duration := all_durations.sum
  let sorted := sortQ all_durations
  let n := sorted.length
  let dropped := (sorted.filter (fun d => decide (16.67 < d))).length
  let buckets := sorted.foldl addBucket {}
  let clusters := findClusters commits []
  ({ total_commits := n
     total_duration_ms := round2 total_duration
     avg_duration_ms := if n ≠ 0 then round2 (total_duration / (n : ℚ)) else 0
     median_duration_ms := round2 (percentile sorted 50)
     max_duration_ms := round2 (pymax sorted)
     p95_duration_ms := round2 (percentile sorted 95)
     p99_duration_ms := round2 (percentile sorted 99)
     dropped_frames := dropped
     dropped_pct := if n ≠ 0 then round2 ((dropped : ℚ) / (n : ℚ) * 100) else 0
     total_components := components.length
     compiled_with_forget := (components.filter (fun p => p.2.compiled_with_forget)).length
     duration_buckets := buckets
     clusters := clusters.map mkCluster },
   components, commits)

/-! ## Session differ (`compare.py`) -/

/-- The eleven compared metrics of `compare_overall`: label, accessor into the
overall stats (integer metrics cast to ℚ), and the `lower_better` flag exactly
as in the `metrics` table of `compare.py` (note: "Total render time" carries
`False` there). -/
def metricsTable : List (String × (OverallStats → ℚ) × Bool) :=
  [("Total commits", fun o => (o.total_commits : ℚ), false),
   ("Total render time", fun o => o.total_duration_ms, false),
   ("Avg commit", fun o => o.avg_duration_ms, true),
   ("Median commit", fun o => o.median_duration_ms, true),
   ("P95 commit", fun o => o.p95_duration_ms, true),
   ("P99 commit", fun o => o.p99_duration_ms, true),
   ("Max commit", fun o => o.max_duration_ms, true),
   ("Dropped frames", fun o => (o.dropped_frames : ℚ), true),
   ("Dropped %", fun o => o.dropped_pct, true),
   ("Components", fun o => (o.total_components : ℚ), false),
   ("React Compiler", fun o => (o.compiled_with_forget : ℚ), false)]

/-- Change / status computation for one overall-stats metric: when the before
value is nonzero the percentage change is `(after - before)/before·100` and a
lower-is-better metric is classified by the ±5 % thresholds; a zero before
value reports no change (the "—" dash) and no status. -/
def compareRow (bval aval : ℚ) (lower_better : Bool) : Option ℚ × String :=
  if bval ≠ 0 then
    let change_pct := (aval - bval) / bval * 100
    (some change_pct,
     if lower_better then
       if change_pct < -5 then "improved"
       else if 5 < change_pct then "REGRESSED"
       else "~same"
     else "")
  else (none, "")

/-- Embedding of `compare_overall`: one `(label, change%, status)` row per
metric of `metricsTable` (the formatted before/after value strings of the
Python row are presentation only and are not modelled). -/
def compare_overall (before after : OverallStats) : List (String × Option ℚ × String) :=
  metricsTable.map (fun m =>
    let r := compareRow (m.2.1 before) (m.2.1 after) m.2.2
    (m.1, r.1, r.2))

/-- Embedding of the `aggregate_by_name` closure of `match_components`:
merge all component entries sharing a resolved name, skipping `Unknown#…`
placeholders; sums `render_count`/`total_self_time`/`total_actual_time`,
maxima of the max fields; `fiber_id`/`compiled_with_forget` come from the
first entry carrying the name. -/
def aggregate_by_name (comps : List ComponentStats) : List (String × ComponentStats) :=
  comps.foldl
    (fun by_name c =>
      if c.name.startsWith "Unknown#" then by_name
      else
        let agg := (alookup by_name c.name).getD
          { name := c.name, fiber_id := c.fiber_id
            compiled_with_forget := c.compiled_with_forget }
        ainsert by_name c.name
          { agg with
              render_count := agg.render_count + c.render_count
              total_self_time := agg.total_self_time + c.total_self_time
              max_self_time := max agg.max_self_time c.max_self_time
              total_actual_time := agg.total_actual_time + c.total_actual_time
              max_actual_time := max agg.max_actual_time c.max_actual_time })
    []

/-- Embedding of `match_components`: aggregate each session by name and outer
join on the union of names.  (Python iterates a `set`, whose order is
unspecified; the union is represented here by `dedup` of the concatenated key
lists — all claims about the result are order-independent.) -/
def match_components (before_comps after_comps : CompMap) :
    List (String × Option ComponentStats × Option ComponentStats) :=
  let before_names := aggregate_by_name (before_comps.map (fun p => p.2))
  let after_names := aggregate_by_name (after_comps.map (fun p => p.2))
  let all_names := (before_names.map (fun p => p.1) ++ after_names.map (fun p => p.1)).dedup
  all_names.map (fun n => (n, alookup before_names n, alookup after_names n))

/-- Displayed change of a per-component render-count or self-time column:
a percentage when the before value is positive, the "NEW" marker when only the
after value is positive, else the "—" dash. -/
inductive Change where
  | pct : ℚ → Change
  | markNew : Change
  | dash : Change
deriving DecidableEq

/-- Per-component comparison row of the differ's main loop (compare.py lines
187–225), keeping the numeric content of the displayed columns. -/
structure DiffRow where
  name : String
  b_renders : Nat
  a_renders : Nat
  render_change : Change
  b_time : ℚ
  a_time : ℚ
  time_change : Change
  status : String
deriving DecidableEq

/-- The status classification exactly as sequenced in the code (compare.py
lines 209–218): eliminated, then improved, then regressed, then new. -/
def classifyStatus (b_renders a_renders : Nat) (b_time a_time : ℚ) : String :=
  if 0 < b_renders ∧ a_renders = 0 then "ELIMINATED"
  else if 0 < b_time ∧ a_time < b_time * 0.5 then "improved"
  else if 0 < b_time ∧ b_time * 1.5 < a_time then "REGRESSED"
  else if 0 < a_renders ∧ b_renders = 0 then "new"
  else ""

/-- The status classification in the precedence order stated by the spec
(§4.6 step 3): eliminated, then new, then improved, then regressed. -/
def classifySpecOrder (b_renders a_renders : Nat) (b_time a_time : ℚ) : String :=
  if 0 < b_renders ∧ a_renders = 0 then "ELIMINATED"
  else if b_renders = 0 ∧ 0 < a_renders then "new"
  else if 0 < b_time ∧ a_time < b_time * 0.5 then "improved"
  else if 0 < b_time ∧ b_time * 1.5 < a_time then "REGRESSED"
  else ""

/-- Render count of an optional matched side (`b.render_count if b else 0`). -/
def rcOf : Option ComponentStats → Nat
  | some s => s.render_count
  | none => 0

/-- Self time of an optional matched side (`b.total_self_time if b else 0`). -/
def tsOf : Option ComponentStats → ℚ
  | some s => s.total_self_time
  | none => 0

/-- One row of the component-changes table (compare.py lines 187–225). -/
def diffRow (name : String) (b a : Option ComponentStats) : DiffRow :=
  let b_renders := rcOf b
  let a_renders := rcOf a
  let b_time := tsOf b
  let a_time := tsOf a
  { name := name
    b_renders := b_renders
    a_renders := a_renders
    render_change :=
      if 0 < b_renders then
        Change.pct (((a_renders : ℚ) - (b_renders : ℚ)) / (b_renders : ℚ) * 100)
      else if 0 < a_renders then Change.markNew
      else Change.dash
    b_time := b_time
    a_time := a_time
    time_change :=
      if 0 < b_time then Change.pct ((a_time - b_time) / b_time * 100)
      else if 0 < a_time then Change.markNew
      else Change.dash
    status := classifyStatus b_renders a_renders b_time a_time }

/-- All component comparison rows of a diff (the Python main additionally
sorts them by `max` self-time and truncates to `--top` rows for display). -/
def diffRows (before after : CompMap) : List DiffRow :=
  (match_components before after).map (fun x => diffRow x.1 x.2.1 x.2.2)

/-! ## Spec-side definitions for the overall-stats comparison -/

/-- The metrics the spec-side comparison treats as lower-is-better, amended to
match the code: the avg/median/p95/p99/max duration metrics and both
dropped-frame metrics (total render time and the count metrics carry no
status). -/
def lowerIsBetterLabels : List String :=
  ["Avg commit", "Median commit", "P95 commit", "P99 commit", "Max commit",
   "Dropped frames", "Dropped %"]

/-- Spec-side percentage change: `(after − before)/before × 100` when the
before value is nonzero, else the "—" dash (`none`). -/
def specChange (bval aval : ℚ) : Option ℚ :=
  if bval = 0 then none else some ((aval - bval) / bval * 100)

/-- Spec-side metric status: lower-is-better metrics (by label) are classified
`improved` below −5 %, `REGRESSED` above +5 %, else `~same`; other metrics and
dashed changes carry no status. -/
def specStatus (label : String) (bval aval : ℚ) : String :=
  match specChange bval aval with
  | none => ""
  | some c =>
      if label ∈ lowerIsBetterLabels then
        if c < -5 then "improved"
        else if 5 < c then "REGRESSED"
        else "~same"
      else ""

/-- The overall-stats comparison as the (amended) spec words it. -/
def spec_compare_overall (before after : OverallStats) :
    List (String × Option ℚ × String) :=
  metricsTable.map (fun m =>
    (m.1, specChange (m.2.1 before) (m.2.1 after),
     specStatus m.1 (m.2.1 before) (m.2.1 after)))

/-! ## Predicates used by the verification statements -/

/-- Componentwise invariant established by the aggregation phase: a component
has been counted as rendering at least once exactly when it accumulated
positive self time, and the self/max fields are non-negative. -/
def CompInv (c : ComponentStats) : Prop :=
  (0 < c.render_count ↔ 0 < c.total_self_time) ∧
  0 ≤ c.total_self_time ∧ 0 ≤ c.max_self_time ∧ 0 ≤ c.max_actual_time

/-- Map-wide form of `CompInv`. -/
def MapInv (m : CompMap) : Prop := ∀ p ∈ m, CompInv p.2

/-- All inclusive (actual) duration values appearing in the trace are
non-negative. -/
def ActualNonneg (t : RawTrace) : Prop :=
  ∀ root ∈ t.dataForRoots.getD [],
    ∀ c ∈ root.commitData.getD [],
      ∀ p ∈ iter_pairs (c.fiberActualDurations.getD (FiberMap.asList [])), 0 ≤ p.2

/-- Every component entry of the table carries the name the snapshot resolver
assigns to its fiber id (true of every table the aggregator builds). -/
def NameConsistent (snaps : SnapMap) (m : CompMap) : Prop :=
  ∀ fid c, alookup m fid = some c → c.name = resolvedName snaps fid

/-- The entries of a self-durations list that concern fiber `fid` and carry a
strictly positive duration. -/
def posOf (pairs : List (Int × ℚ)) (fid : Int) : List (Int × ℚ) :=
  pairs.filter (fun p => decide (p.1 = fid) && decide (0 < p.2))

/-- Component stats a fiber id starts from when a commit is processed: its
existing entry, or a fresh one. -/
def baseOf (snaps : SnapMap) (comps : CompMap) (fid : Int) : ComponentStats :=
  (alookup comps fid).getD (mkStats snaps fid)

/-- The three self-time statistics of a component affected by the
self-durations loop. -/
def selfTriple (c : ComponentStats) : Nat × ℚ × ℚ :=
  (c.render_count, c.total_self_time, c.max_self_time)

/-! ## Concrete traces used by counterexamples and witnesses -/

/-- Trace with a negative inclusive (actual) duration for a fiber that also
appears in the self durations. -/
def traceNegActual : RawTrace :=
  { dataForRoots := some
      [{ snapshots := some (FiberMap.asDict [(1, { displayName := some "A" })])
         commitData := some
           [{ timestamp := some 100
              fiberSelfDurations := some (FiberMap.asDict [(1, 1)])
              fiberActualDurations := some (FiberMap.asDict [(1, -2)]) }] }] }

/-- Trace whose only component has a single zero-valued self duration, hence
`render_count = 0` with a resolvable (non-`Unknown#`) name. -/
def traceZeroRender : RawTrace :=
  { dataForRoots := some
      [{ snapshots := some (FiberMap.asDict [(1, { displayName := some "A" })])
         commitData := some
           [{ timestamp := some 100
              fiberSelfDurations := some (FiberMap.asDict [(1, 0)]) }] }] }

/-- Two-root trace whose cluster scan crosses the root boundary: root 1
contributes commit durations 5, 20, 30 (per-root indices 0, 1, 2, timestamps
1, 2, 3), root 2 contributes a single commit of duration 16 (per-root index 0,
timestamp 100). -/
def traceTwoRoots : RawTrace :=
  { dataForRoots := some
      [{ snapshots := some (FiberMap.asDict [(1, { displayName := some "A" })])
         commitData := some
           [{ timestamp := some 1
              fiberSelfDurations := some (FiberMap.asDict [(1, 5)]) },
            { timestamp := some 2
              fiberSelfDurations := some (FiberMap.asDict [(1, 20)]) },
            { timestamp := some 3
              fiberSelfDurations := some (FiberMap.asDict [(1, 30)]) }] },
       { commitData := some
           [{ timestamp := some 100
              fiberSelfDurations := some (FiberMap.asDict [(1, 16)]) }] }] }

/-- Three-commit trace in which every commit exceeds 10 ms, matching the
spec's concrete scenario on its first commit (Button 5 ms, List 12 ms). -/
def traceCluster : RawTrace :=
  { dataForRoots := some
      [{ snapshots := some (FiberMap.asDict
           [(1, { displayName := some "Button" }), (2, { displayName := some "List" })])
         commitData := some
           [{ timestamp := some 100
              fiberSelfDurations := some (FiberMap.asDict [(1, 5), (2, 12)]) },
            { timestamp := some 101
              fiberSelfDurations := some (FiberMap.asDict [(2, 11)]) },
            { timestamp := some 102
              fiberSelfDurations := some (FiberMap.asDict [(1, 12)]) }] }] }

/-- Overall stats pair exercising the total-render-time row of the comparison:
the before total is 10 ms, the after total is 1 ms (a −90 % change). -/
def statsBefore : OverallStats := { total_duration_ms := 10 }

/-- After side of the total-render-time comparison counterexample. -/
def statsAfter : OverallStats := { total_duration_ms := 1 }


/-- Component stats of "Button" produced by analysing `traceCluster`
(also the value `aggregate_by_name` yields for that name). -/
def cButton : ComponentStats :=
  { name := "Button", fiber_id := 1, render_count := 2, total_self_time := 17
    max_self_time := 12, total_actual_time := 0, max_actual_time := 0
    compiled_with_forget := false }

/-- Component stats of "A" produced by analysing `traceNegActual`. -/
def cNegA : ComponentStats :=
  { name := "A", fiber_id := 1, render_count := 1, total_self_time := 1
    max_self_time := 1, total_actual_time := -2, max_actual_time := 0
    compiled_with_forget := false }

/-- The commit sequence produced by analysing `traceCluster`. -/
def clusterCommits : List CommitInfo :=
  [{ index := 0, timestamp := 100, duration := 17, priority_level := "unknown"
     num_components := 2, top_components := [("List", 12), ("Button", 5)] },
   { index := 1, timestamp := 101, duration := 11, priority_level := "unknown"
     num_components := 1, top_components := [("List", 11)] },
   { index := 2, timestamp := 102, duration := 12, priority_level := "unknown"
     num_components := 1, top_components := [("Button", 12)] }]

/-- The normalized self-durations list of a commit
(`iter_pairs(commit.get("fiberSelfDurations", []))`). -/
def selfDurationsOf (commit : RawCommit) : List (Int × ℚ) :=
  iter_pairs (commit.fiberSelfDurations.getD (FiberMap.asList []))

/-- Commit whose self durations hold a positive, a negative and a zero entry. -/
def commitSelfW : RawCommit :=
  { fiberSelfDurations := some (FiberMap.asDict [(1, 3), (1, -1), (2, 0)]) }

/-- Component stats of fiber 1 after processing `commitSelfW` from an empty
table with no snapshots. -/
def cW1 : ComponentStats :=
  { name := "Unknown#1", fiber_id := 1, render_count := 1, total_self_time := 3
    max_self_time := 3, total_actual_time := 0, max_actual_time := 0
    compiled_with_forget := false }

/-! ## Association-list lemmas -/

theorem alookup_ainsert_self {κ β : Type} [DecidableEq κ] (m : List (κ × β)) (k : κ) (v : β) :
    alookup (ainsert m k v) k = some v := by
  induction m with
  | nil => simp [ainsert, alookup]
  | cons p rest ih =>
      by_cases h : p.1 = k
      · simp [ainsert, h, alookup]
      · simp [ainsert, h, alookup, ih]

theorem alookup_ainsert_ne {κ β : Type} [DecidableEq κ] (m : List (κ × β)) (k k' : κ) (v : β)
    (h : k' ≠ k) : alookup (ainsert m k v) k' = alookup m k' := by
  have hne : ¬ k = k' := fun hk => h hk.symm
  induction m with
  | nil => simp [ainsert, alookup, hne]
  | cons p rest ih =>
      by_cases hp : p.1 = k
      · subst hp
        have hne' : ¬ p.1 = k' := fun hk => h hk.symm
        simp [ainsert, alookup, hne']
      · simp only [ainsert, if_neg hp]
        by_cases hp' : p.1 = k'
        · simp [alookup, hp']
        · simp [alookup, hp', ih]

theorem mem_ainsert {κ β : Type} [DecidableEq κ] (m : List (κ × β)) (k : κ) (v : β) :
    ∀ q ∈ ainsert m k v, q = (k, v) ∨ q ∈ m := by
  induction m with
  | nil => intro q hq; simp [ainsert] at hq; exact Or.inl hq
  | cons p rest ih =>
      intro q hq
      by_cases h : p.1 = k
      · simp only [ainsert, if_pos h, List.mem_cons] at hq
        rcases hq with h1 | h2
        · exact Or.inl h1
        · exact Or.inr (List.mem_cons_of_mem _ h2)
      · simp only [ainsert, if_neg h, List.mem_cons] at hq
        rcases hq with h1 | h2
        · exact Or.inr (h1 ▸ List.mem_cons_self _ _)
        · rcases ih q h2 with h3 | h4
          · exact Or.inl h3
          · exact Or.inr (List.mem_cons_of_mem _ h4)

theorem alookup_mem {κ β : Type} [DecidableEq κ] (m : List (κ × β)) (k : κ) (v : β)
    (h : alookup m k = some v) : (k, v) ∈ m := by
  induction m with
  | nil => simp [alookup] at h
  | cons p rest ih =>
      by_cases hp : p.1 = k
      · simp only [alookup, if_pos hp] at h
        have hv : p.2 = v := Option.some.inj h
        have hpv : p = (k, v) := by cases p; simp_all
        rw [← hpv]
        exact List.mem_cons_self _ _
      · simp only [alookup, if_neg hp] at h
        exact List.mem_cons_of_mem _ (ih h)

theorem alookup_isSome_of_mem_keys {κ β : Type} [DecidableEq κ] (m : List (κ × β)) (k : κ)
    (h : k ∈ m.map Prod.fst) : ∃ v, alookup m k = some v := by
  induction m with
  | nil => simp at h
  | cons p rest ih =>
      by_cases hp : p.1 = k
      · exact ⟨p.2, by simp [alookup, hp]⟩
      · have : k ∈ rest.map Prod.fst := by
          simp only [List.map_cons, List.mem_cons] at h
          rcases h with h1 | h2
          · exact absurd h1.symm hp
          · exact h2
        rcases ih this with ⟨v, hv⟩
        exact ⟨v, by simp [alookup, hp, hv]⟩

/-! ## Fold preservation -/

theorem foldl_preserve {α σ : Type} (P : σ → Prop) (f : σ → α → σ) :
    ∀ (l : List α) (s : σ), P s → (∀ s' a, a ∈ l → P s' → P (f s' a)) → P (l.foldl f s) := by
  intro l
  induction l with
  | nil => intro s hs _; exact hs
  | cons x xs ih =>
      intro s hs hstep
      exact ih (f s x) (hstep s x (List.mem_cons_self x xs) hs)
        (fun s' a ha hp => hstep s' a (List.mem_cons_of_mem _ ha) hp)

/-! ## Arithmetic helpers -/

theorem rat_add_pos_iff {a b : ℚ} (ha : 0 ≤ a) (hb : 0 ≤ b) :
    0 < a + b ↔ 0 < a ∨ 0 < b := by
  constructor
  · intro h
    by_contra hc
    push_neg at hc
    linarith [hc.1, hc.2]
  · rintro (h | h) <;> linarith

/-! ## The component invariant through the aggregation phase -/

theorem compInv_mkStats (snaps : SnapMap) (fid : Int) : CompInv (mkStats snaps fid) := by
  simp [CompInv, mkStats]

theorem compInv_baseOf (snaps : SnapMap) (comps : CompMap) (fid : Int)
    (h : MapInv comps) : CompInv (baseOf snaps comps fid) := by
  unfold baseOf
  cases hc : alookup comps fid with
  | none => simpa using compInv_mkStats snaps fid
  | some c =>
      simpa using h (fid, c) (alookup_mem comps fid c hc)

theorem mapInv_ainsert (m : CompMap) (k : Int) (v : ComponentStats)
    (hm : MapInv m) (hv : CompInv v) : MapInv (ainsert m k v) := by
  intro q hq
  rcases mem_ainsert m k v q hq with h1 | h2
  · rw [h1]; exact hv
  · exact hm q h2

theorem selfStep_pos (snaps : SnapMap) (st : SelfState) (p : Int × ℚ) (hd : 0 < p.2) :
    selfStep snaps st p =
      { comps := ainsert st.comps p.1
          { baseOf snaps st.comps p.1 with
              render_count := (baseOf snaps st.comps p.1).render_count + 1
              total_self_time := (baseOf snaps st.comps p.1).total_self_time + p.2
              max_self_time := max (baseOf snaps st.comps p.1).max_self_time p.2 }
        duration := st.duration + p.2
        cands := st.cands ++ [((baseOf snaps st.comps p.1).name, p.2)] } := by
  simp [selfStep, baseOf, hd]

theorem selfStep_nonpos (snaps : SnapMap) (st : SelfState) (p : Int × ℚ) (hd : ¬ 0 < p.2) :
    selfStep snaps st p =
      { comps := ainsert st.comps p.1 (baseOf snaps st.comps p.1)
        duration := st.duration + p.2
        cands := st.cands } := by
  simp [selfStep, baseOf, hd]

theorem compInv_selfUpdate (c : ComponentStats) (d : ℚ) (hc : CompInv c) (hd : 0 < d) :
    CompInv { c with
        render_count := c.render_count + 1
        total_self_time := c.total_self_time + d
        max_self_time := max c.max_self_time d } := by
  obtain ⟨hiff, hts, hms, hma⟩ := hc
  refine ⟨?_, ?_, ?_, ?_⟩
  · show 0 < c.render_count + 1 ↔ 0 < c.total_self_time + d
    constructor
    · intro _; linarith
    · intro _; exact Nat.succ_pos _
  · show 0 ≤ c.total_self_time + d
    linarith
  · show 0 ≤ max c.max_self_time d
    exact le_trans hms (le_max_left _ _)
  · show 0 ≤ c.max_actual_time
    exact hma

theorem mapInv_selfStep (snaps : SnapMap) (st : SelfState) (p : Int × ℚ)
    (h : MapInv st.comps) : MapInv (selfStep snaps st p).comps := by
  have hbase : CompInv (baseOf snaps st.comps p.1) := compInv_baseOf _ _ _ h
  by_cases hd : 0 < p.2
  · rw [selfStep_pos snaps st p hd]
    exact mapInv_ainsert _ _ _ h (compInv_selfUpdate _ _ hbase hd)
  · rw [selfStep_nonpos snaps st p hd]
    exact mapInv_ainsert _ _ _ h hbase

theorem mapInv_process_self (snaps : SnapMap) (st : SelfState) (pairs : List (Int × ℚ))
    (h : MapInv st.comps) : MapInv (process_self snaps st pairs).comps := by
  unfold process_self
  exact foldl_preserve (fun s => MapInv s.comps) (selfStep snaps) pairs st h
    (fun s a _ hp => mapInv_selfStep snaps s a hp)

theorem mapInv_actualStep (comps : CompMap) (p : Int × ℚ)
    (h : MapInv comps) : MapInv (actualStep comps p) := by
  unfold actualStep
  cases hc : alookup comps p.1 with
  | none => exact h
  | some c =>
      have hcinv : CompInv c := h (p.1, c) (alookup_mem comps p.1 c hc)
      obtain ⟨hiff, hts, hms, hma⟩ := hcinv
      exact mapInv_ainsert _ _ _ h ⟨hiff, hts, hms, le_trans hma (le_max_left _ _)⟩

theorem mapInv_processCommit (snaps : SnapMap) (comps : CompMap) (ci : Nat) (commit : RawCommit)
    (h : MapInv comps) : MapInv (processCommit snaps comps ci commit).1 := by
  unfold processCommit
  refine foldl_preserve MapInv actualStep
    (iter_pairs (commit.fiberActualDurations.getD (FiberMap.asList [])))
    (process_self snaps { comps := comps, duration := 0, cands := [] }
      (iter_pairs (commit.fiberSelfDurations.getD (FiberMap.asList [])))).comps
    (mapInv_process_self snaps { comps := comps, duration := 0, cands := [] } _ h) ?_
  intro s a _ hp
  exact mapInv_actualStep s a hp

theorem mapInv_processRoot (snaps : SnapMap) (acc : CompMap × List CommitInfo) (root : RawRoot)
    (h : MapInv acc.1) : MapInv (processRoot snaps acc root).1 := by
  unfold processRoot
  refine foldl_preserve (fun (a : CompMap × List CommitInfo) => MapInv a.1) _ ((root.commitData.getD []).enum) acc h ?_
  intro a p _ hp
  exact mapInv_processCommit snaps a.1 p.1 p.2 hp

theorem mapInv_analyzeComponents (t : RawTrace) : MapInv (analyzeComponents t).1 := by
  unfold analyzeComponents
  refine foldl_preserve (fun (a : CompMap × List CommitInfo) => MapInv a.1) _ (t.dataForRoots.getD []) ([], []) ?_ ?_
  · intro q hq
    simp at hq
  · intro a r _ hp
    exact mapInv_processRoot _ a r hp

/-! ## The component invariant through per-name aggregation -/

theorem compInv_aggMerge (agg c : ComponentStats) (h1 : CompInv agg) (h2 : CompInv c) :
    CompInv { agg with
        render_count := agg.render_count + c.render_count
        total_self_time := agg.total_self_time + c.total_self_time
        max_self_time := max agg.max_self_time c.max_self_time
        total_actual_time := agg.total_actual_time + c.total_actual_time
        max_actual_time := max agg.max_actual_time c.max_actual_time } := by
  obtain ⟨hiff1, hts1, hms1, hma1⟩ := h1
  obtain ⟨hiff2, hts2, hms2, hma2⟩ := h2
  refine ⟨?_, ?_, ?_, ?_⟩
  · show 0 < agg.render_count + c.render_count ↔ 0 < agg.total_self_time + c.total_self_time
    rw [rat_add_pos_iff hts1 hts2]
    have hn : 0 < agg.render_count + c.render_count ↔
        0 < agg.render_count ∨ 0 < c.render_count := by omega
    rw [hn]
    exact or_congr hiff1 hiff2
  · show 0 ≤ agg.total_self_time + c.total_self_time
    linarith
  · show 0 ≤ max agg.max_self_time c.max_self_time
    exact le_trans hms1 (le_max_left _ _)
  · show 0 ≤ max agg.max_actual_time c.max_actual_time
    exact le_trans hma1 (le_max_left _ _)

theorem aggInv (comps : List ComponentStats) (h : ∀ c ∈ comps, CompInv c) :
    ∀ p ∈ aggregate_by_name comps, CompInv p.2 := by
  unfold aggregate_by_name
  refine foldl_preserve (fun (m : List (String × ComponentStats)) => ∀ p ∈ m, CompInv p.2) _ comps []
    (by intro p hp; simp at hp) ?_
  intro m c hc hm
  by_cases hu : c.name.startsWith "Unknown#"
  · intro p hp
    simp only [hu] at hp
    simp only [if_pos] at hp
    exact hm p hp
  · intro p hp
    simp only [hu] at hp
    simp only [if_neg, Bool.false_eq_true, ite_false] at hp
    have haggInv : CompInv ((alookup m c.name).getD
        { name := c.name, fiber_id := c.fiber_id
          compiled_with_forget := c.compiled_with_forget }) := by
      cases hl : alookup m c.name with
      | none => simp [CompInv]
      | some a => simpa using hm (c.name, a) (alookup_mem _ _ _ hl)
    rcases mem_ainsert _ _ _ p hp with h1 | h2
    · rw [h1]
      exact compInv_aggMerge _ _ haggInv (h c hc)
    · exact hm p h2

/-! ## Non-negativity of inclusive time under non-negative inputs -/

theorem snd_mem_of_mem_enum {α : Type} {l : List α} {x : Nat × α} (h : x ∈ l.enum) :
    x.2 ∈ l := by
  have h2 := List.mem_enum_iff_getElem?.mp h
  exact List.getElem?_mem h2

/-- Map-wide non-negativity of `total_actual_time`. -/
def TAInv (m : CompMap) : Prop := ∀ p ∈ m, 0 ≤ p.2.total_actual_time

theorem taInv_baseOf (snaps : SnapMap) (comps : CompMap) (fid : Int)
    (h : TAInv comps) : 0 ≤ (baseOf snaps comps fid).total_actual_time := by
  unfold baseOf
  cases hc : alookup comps fid with
  | none => simp [mkStats]
  | some c => simpa using h (fid, c) (alookup_mem _ _ _ hc)

theorem taInv_selfStep (snaps : SnapMap) (st : SelfState) (p : Int × ℚ)
    (h : TAInv st.comps) : TAInv (selfStep snaps st p).comps := by
  have hbase := taInv_baseOf snaps st.comps p.1 h
  by_cases hd : 0 < p.2
  · rw [selfStep_pos snaps st p hd]
    intro q hq
    rcases mem_ainsert _ _ _ q hq with h1 | h2
    · rw [h1]; exact hbase
    · exact h q h2
  · rw [selfStep_nonpos snaps st p hd]
    intro q hq
    rcases mem_ainsert _ _ _ q hq with h1 | h2
    · rw [h1]; exact hbase
    · exact h q h2

theorem taInv_actualStep (comps : CompMap) (p : Int × ℚ) (hp : 0 ≤ p.2)
    (h : TAInv comps) : TAInv (actualStep comps p) := by
  unfold actualStep
  cases hc : alookup comps p.1 with
  | none => exact h
  | some c =>
      have hcta : 0 ≤ c.total_actual_time := by
        simpa using h (p.1, c) (alookup_mem _ _ _ hc)
      intro q hq
      rcases mem_ainsert _ _ _ q hq with h1 | h2
      · rw [h1]
        show 0 ≤ c.total_actual_time + p.2
        linarith
      · exact h q h2

theorem taInv_processCommit (snaps : SnapMap) (comps : CompMap) (ci : Nat) (commit : RawCommit)
    (hp : ∀ p ∈ iter_pairs (commit.fiberActualDurations.getD (FiberMap.asList [])), 0 ≤ p.2)
    (h : TAInv comps) : TAInv (processCommit snaps comps ci commit).1 := by
  unfold processCommit
  refine foldl_preserve TAInv actualStep
    (iter_pairs (commit.fiberActualDurations.getD (FiberMap.asList [])))
    (process_self snaps { comps := comps, duration := 0, cands := [] }
      (iter_pairs (commit.fiberSelfDurations.getD (FiberMap.asList [])))).comps
    ?_ ?_
  · exact foldl_preserve (fun (st : SelfState) => TAInv st.comps) (selfStep snaps) _ _ h
      (fun st a _ hst => taInv_selfStep snaps st a hst)
  · intro s a ha hs
    exact taInv_actualStep s a (hp a ha) hs

theorem taInv_processRoot (snaps : SnapMap) (acc : CompMap × List CommitInfo) (root : RawRoot)
    (hroot : ∀ c ∈ root.commitData.getD [],
      ∀ p ∈ iter_pairs (c.fiberActualDurations.getD (FiberMap.asList [])), 0 ≤ p.2)
    (h : TAInv acc.1) : TAInv (processRoot snaps acc root).1 := by
  unfold processRoot
  refine foldl_preserve (fun (a : CompMap × List CommitInfo) => TAInv a.1) _
    ((root.commitData.getD []).enum) acc h ?_
  intro a p hpmem hp
  exact taInv_processCommit snaps a.1 p.1 p.2 (hroot p.2 (snd_mem_of_mem_enum hpmem)) hp

theorem taInv_analyzeComponents (t : RawTrace) (hta : ActualNonneg t) :
    TAInv (analyzeComponents t).1 := by
  unfold analyzeComponents
  refine foldl_preserve (fun (a : CompMap × List CommitInfo) => TAInv a.1) _
    (t.dataForRoots.getD []) ([], []) ?_ ?_
  · intro q hq
    simp at hq
  · intro a r hr hp
    exact taInv_processRoot _ a r (hta r hr) hp

/-! ## Claim C3: sign of the ComponentStats duration fields -/

/-- C3, counterexample: the claim "all four duration fields are non-negative"
fails on the code.  Analysing `traceNegActual` — whose only fiber has self
duration 1 but inclusive (actual) duration −2 — produces a component entry
whose `total_actual_time` is −2 < 0, because the actual-durations loop
accumulates without a positivity guard. -/
theorem C3_counterexample :
    alookup (analyzeComponents traceNegActual).1 1 = some cNegA ∧
    cNegA.total_actual_time < 0 := by
  constructor
  · decide
  · decide

/-- C3, amended: every `ComponentStats` entry produced by analysis has
`render_count ≥ 0` and non-negative `total_self_time`, `max_self_time` and
`max_actual_time`; `total_actual_time` is non-negative provided every
inclusive-duration value in the trace is non-negative (without that proviso it
can go negative, see the counterexample). -/
theorem C3_stats_nonneg (t : RawTrace) :
    ∀ p ∈ (analyzeComponents t).1,
      0 ≤ p.2.render_count ∧ 0 ≤ p.2.total_self_time ∧ 0 ≤ p.2.max_self_time ∧
      0 ≤ p.2.max_actual_time ∧ (ActualNonneg t → 0 ≤ p.2.total_actual_time) := by
  intro p hp
  obtain ⟨_, hts, hms, hma⟩ := mapInv_analyzeComponents t p hp
  exact ⟨Nat.zero_le _, hts, hms, hma, fun hta => taInv_analyzeComponents t hta p hp⟩

/-- C3, witness: the amended statement evaluated on `traceCluster` at the
"Button" component. -/
theorem C3_stats_nonneg_witness :
    0 ≤ cButton.render_count ∧ 0 ≤ cButton.total_self_time ∧ 0 ≤ cButton.max_self_time ∧
    0 ≤ cButton.max_actual_time ∧ 0 ≤ cButton.total_actual_time := by
  have h := C3_stats_nonneg traceCluster ((1 : Int), cButton) (by decide)
  refine ⟨h.1, h.2.1, h.2.2.1, h.2.2.2.1, h.2.2.2.2 ?_⟩
  unfold ActualNonneg
  decide

/-! ## Claim C9: render count is positive iff total self time is positive -/

/-- C9: after analysing any trace, every component entry satisfies
`render_count > 0 ↔ total_self_time > 0`, and the equivalence still holds for
every entry of the session differ's per-name aggregation of those components. -/
theorem C9_render_iff_selftime (t : RawTrace) :
    (∀ p ∈ (analyzeComponents t).1, (0 < p.2.render_count ↔ 0 < p.2.total_self_time)) ∧
    (∀ q ∈ aggregate_by_name ((analyzeComponents t).1.map (fun p => p.2)),
      (0 < q.2.render_count ↔ 0 < q.2.total_self_time)) := by
  constructor
  · intro p hp
    exact (mapInv_analyzeComponents t p hp).1
  · intro q hq
    have hc : ∀ c ∈ (analyzeComponents t).1.map (fun p => p.2), CompInv c := by
      intro c hcm
      rcases List.mem_map.mp hcm with ⟨p, hp, rfl⟩
      exact mapInv_analyzeComponents t p hp
    exact (aggInv _ hc q hq).1

/-- C9, witness: the equivalence evaluated on `traceCluster` at the "Button"
component, both before and after per-name aggregation. -/
theorem C9_render_iff_selftime_witness :
    (0 < cButton.render_count ↔ 0 < cButton.total_self_time) ∧
    (0 < cButton.render_count ↔ 0 < cButton.total_self_time) := by
  have h := C9_render_iff_selftime traceCluster
  exact ⟨h.1 ((1 : Int), cButton) (by decide), h.2 ("Button", cButton) (by decide)⟩

/-! ## Classification order (claim C2) -/

theorem classify_eq (br ar : Nat) (bt at2 : ℚ) (hb : 0 < br ↔ 0 < bt) :
    classifyStatus br ar bt at2 = classifySpecOrder br ar bt at2 := by
  unfold classifyStatus classifySpecOrder
  by_cases h1 : 0 < br ∧ ar = 0
  · simp [h1]
  · by_cases h2 : br = 0 ∧ 0 < ar
    · have hbt : ¬ 0 < bt := by
        intro hbt
        have := hb.mpr hbt
        omega
      have hI : ¬ (0 < bt ∧ at2 < bt * 0.5) := fun hx => hbt hx.1
      have hR : ¬ (0 < bt ∧ bt * 1.5 < at2) := fun hx => hbt hx.1
      have h4 : 0 < ar ∧ br = 0 := ⟨h2.2, h2.1⟩
      simp [h1, hI, hR, h2, h4]
    · have h4 : ¬ (0 < ar ∧ br = 0) := fun hx => h2 ⟨hx.2, hx.1⟩
      simp [h1, h2, h4]

theorem match_components_shape (A B : CompMap) :
    ∀ x ∈ match_components A B,
      x.2.1 = alookup (aggregate_by_name (A.map (fun p => p.2))) x.1 ∧
      x.2.2 = alookup (aggregate_by_name (B.map (fun p => p.2))) x.1 ∧
      (x.1 ∈ (aggregate_by_name (A.map (fun p => p.2))).map Prod.fst ∨
       x.1 ∈ (aggregate_by_name (B.map (fun p => p.2))).map Prod.fst) := by
  intro x hx
  unfold match_components at hx
  rcases List.mem_map.mp hx with ⟨n, hn, rfl⟩
  refine ⟨rfl, rfl, ?_⟩
  exact List.mem_append.mp (List.mem_dedup.mp hn)

theorem optSideInv (A : CompMap) (hA : MapInv A) (n : String) :
    (0 < rcOf (alookup (aggregate_by_name (A.map (fun p => p.2))) n) ↔
     0 < tsOf (alookup (aggregate_by_name (A.map (fun p => p.2))) n)) := by
  cases hl : alookup (aggregate_by_name (A.map (fun p => p.2))) n with
  | none => simp [rcOf, tsOf]
  | some s =>
      have hc : ∀ c ∈ A.map (fun p => p.2), CompInv c := by
        intro c hcm
        rcases List.mem_map.mp hcm with ⟨p, hp, rfl⟩
        exact hA p hp
      have := (aggInv _ hc (n, s) (alookup_mem _ _ _ hl)).1
      simpa [rcOf, tsOf] using this

/-- C2: for every matched component pair of a session diff, the status label
the code computes (eliminated, then improved, then regressed, then new) agrees
with the spec's stated precedence order (eliminated, then new, then improved,
then regressed): the two orders coincide because a matched side has a positive
render count exactly when it has positive self time. -/
theorem C2_classification (t1 t2 : RawTrace) :
    ∀ x ∈ match_components (analyzeComponents t1).1 (analyzeComponents t2).1,
      (diffRow x.1 x.2.1 x.2.2).status =
        classifySpecOrder (rcOf x.2.1) (rcOf x.2.2) (tsOf x.2.1) (tsOf x.2.2) := by
  intro x hx
  obtain ⟨e1, e2, _⟩ := match_components_shape _ _ x hx
  show classifyStatus (rcOf x.2.1) (rcOf x.2.2) (tsOf x.2.1) (tsOf x.2.2) = _
  apply classify_eq
  rw [e1]
  exact optSideInv _ (mapInv_analyzeComponents t1) x.1

/-- C2, witness: the matched pair for "Button" when diffing `traceCluster`
against `traceNegActual` (present before, absent after). -/
theorem C2_classification_witness :
    (diffRow "Button" (some cButton) none).status =
      classifySpecOrder (rcOf (some cButton)) (rcOf none) (tsOf (some cButton)) (tsOf none) :=
  C2_classification traceCluster traceNegActual ("Button", some cButton, none) (by decide)

/-! ## Claim C7: diffing a session against itself -/

theorem classify_self (rc : Nat) (ts : ℚ) : classifyStatus rc rc ts ts = "" := by
  unfold classifyStatus
  have h1 : ¬ (0 < rc ∧ rc = 0) := by omega
  have h2 : ¬ (0 < ts ∧ ts < ts * 0.5) := by
    rintro ⟨hpos, hlt⟩
    nlinarith
  have h3 : ¬ (0 < ts ∧ ts * 1.5 < ts) := by
    rintro ⟨hpos, hlt⟩
    nlinarith
  simp [h1, h2, h3]

/-- C7, counterexample: the claim "every matched component shows a 0 % render
and self-time change" fails on the code for a component whose render count is
zero (realized by a zero-valued self duration): the self-diff of
`traceZeroRender` reports the dash "—", not 0 %, for both columns. -/
theorem C7_counterexample :
    ¬ ∀ r ∈ diffRows (analyzeComponents traceZeroRender).1
        (analyzeComponents traceZeroRender).1,
        r.render_change = Change.pct 0 ∧ r.time_change = Change.pct 0 := by
  decide

/-- C7, amended: diffing a session's analysis output against an identical copy
of itself yields no status label for any matched component; components with a
positive render count show a 0 % render-count change and a 0 % self-time
change, while components with zero render count show the dash "—" in both
change columns. -/
theorem C7_self_diff (t : RawTrace) :
    ∀ r ∈ diffRows (analyzeComponents t).1 (analyzeComponents t).1,
      r.status = "" ∧
      (0 < r.b_renders → r.render_change = Change.pct 0 ∧ r.time_change = Change.pct 0) ∧
      (r.b_renders = 0 → r.render_change = Change.dash ∧ r.time_change = Change.dash) := by
  intro r hr
  unfold diffRows at hr
  rcases List.mem_map.mp hr with ⟨x, hx, rfl⟩
  obtain ⟨e1, e2, hkey⟩ := match_components_shape _ _ x hx
  have hsame : x.2.1 = x.2.2 := by rw [e1, e2]
  have hkey2 : x.1 ∈ (aggregate_by_name ((analyzeComponents t).1.map (fun p => p.2))).map
      Prod.fst := by
    rcases hkey with h | h <;> exact h
  obtain ⟨s, hs⟩ := alookup_isSome_of_mem_keys _ _ hkey2
  have hb : x.2.1 = some s := by rw [e1, hs]
  have ha : x.2.2 = some s := by rw [e2, hs]
  have hc : ∀ c ∈ (analyzeComponents t).1.map (fun p => p.2), CompInv c := by
    intro c hcm
    rcases List.mem_map.mp hcm with ⟨p, hp, rfl⟩
    exact mapInv_analyzeComponents t p hp
  have hsinv : 0 < s.render_count ↔ 0 < s.total_self_time :=
    (aggInv _ hc (x.1, s) (alookup_mem _ _ _ hs)).1
  refine ⟨?_, ?_, ?_⟩
  · show classifyStatus (rcOf x.2.1) (rcOf x.2.2) (tsOf x.2.1) (tsOf x.2.2) = ""
    rw [hb, ha]
    exact classify_self _ _
  · intro hpos
    have hposr : 0 < rcOf x.2.1 := hpos
    have hposts : 0 < tsOf x.2.1 := by
      rw [hb] at hposr ⊢
      exact hsinv.mp hposr

    constructor
    · show (if 0 < rcOf x.2.1 then
          Change.pct (((rcOf x.2.2 : ℚ) - (rcOf x.2.1 : ℚ)) / (rcOf x.2.1 : ℚ) * 100)
        else if 0 < rcOf x.2.2 then Change.markNew else Change.dash) = Change.pct 0
      rw [if_pos hposr, hb, ha]
      norm_num
    · show (if 0 < tsOf x.2.1 then
          Change.pct ((tsOf x.2.2 - tsOf x.2.1) / tsOf x.2.1 * 100)
        else if 0 < tsOf x.2.2 then Change.markNew else Change.dash) = Change.pct 0
      rw [if_pos hposts, hb, ha]
      norm_num
  · intro hzero
    have hzr : rcOf x.2.1 = 0 := hzero
    have hzts : ¬ 0 < tsOf x.2.1 := by
      rw [hb]
      intro hts
      have h5 : 0 < s.render_count := hsinv.mpr hts
      rw [hb] at hzr
      have h6 : s.render_count = 0 := hzr
      omega
    have hnr : ¬ 0 < rcOf x.2.1 := by omega
    constructor
    · show (if 0 < rcOf x.2.1 then
          Change.pct (((rcOf x.2.2 : ℚ) - (rcOf x.2.1 : ℚ)) / (rcOf x.2.1 : ℚ) * 100)
        else if 0 < rcOf x.2.2 then Change.markNew else Change.dash) = Change.dash
      rw [if_neg hnr, hsame] at *
      rw [if_neg (by rw [← hsame]; exact hnr)]
    · show (if 0 < tsOf x.2.1 then
          Change.pct ((tsOf x.2.2 - tsOf x.2.1) / tsOf x.2.1 * 100)
        else if 0 < tsOf x.2.2 then Change.markNew else Change.dash) = Change.dash
      rw [if_neg hzts]
      rw [if_neg (by rw [← hsame]; exact hzts)]

/-- C7, witness: the amended statement evaluated on the self-diff of
`traceCluster` at the "Button" row. -/
theorem C7_self_diff_witness :
    (diffRow "Button" (some cButton) (some cButton)).status = "" ∧
    (diffRow "Button" (some cButton) (some cButton)).render_change = Change.pct 0 ∧
    (diffRow "Button" (some cButton) (some cButton)).time_change = Change.pct 0 := by
  have h := C7_self_diff traceCluster (diffRow "Button" (some cButton) (some cButton))
    (by decide)
  exact ⟨h.1, (h.2.1 (by decide)).1, (h.2.1 (by decide)).2⟩

/-! ## Claim C1: the overall-stats comparison table -/

theorem compareRow_spec (lbl : String) (bv av : ℚ) (lb : Bool)
    (hmem : (lbl ∈ lowerIsBetterLabels) ↔ lb = true) :
    (lbl, (compareRow bv av lb).1, (compareRow bv av lb).2)
      = (lbl, specChange bv av, specStatus lbl bv av) := by
  by_cases hz : bv = 0
  · simp [compareRow, specChange, specStatus, hz]
  · cases lb with
    | true =>
        have hl : lbl ∈ lowerIsBetterLabels := hmem.mpr rfl
        simp [compareRow, specChange, specStatus, hz, hl]
    | false =>
        have hl : lbl ∉ lowerIsBetterLabels := fun h => by
          have := hmem.mp h
          simp at this
        simp [compareRow, specChange, specStatus, hz, hl]

/-- C1, counterexample: the claim treats all six duration metrics as
lower-is-better, but the code's metrics table marks "Total render time" with
`lower_better = False`: a −90 % drop in total render time yields an empty
status, not `improved`. -/
theorem C1_counterexample :
    (compare_overall statsBefore statsAfter).getD 1 ("", none, "")
      = ("Total render time", some (-90 : ℚ), "") ∧
    (-90 : ℚ) < -5 ∧ ("" : String) ≠ "improved" := by
  refine ⟨by decide, by norm_num, by decide⟩

/-- C1, amended: the comparison computes `(after − before)/before × 100` when
the before value is nonzero (else a dash with no status) for each of the
eleven metrics, and classifies by the ±5 % thresholds exactly the
lower-is-better metrics, which are the avg/median/p95/p99/max durations and
both dropped-frame metrics — total render time, like the three count metrics,
carries no status. -/
theorem C1_compare_overall (before after : OverallStats) :
    compare_overall before after = spec_compare_overall before after := by
  unfold compare_overall spec_compare_overall
  refine List.map_congr_left ?_
  intro m hm
  fin_cases hm <;> exact compareRow_spec _ _ _ _ (by decide)

/-! ## Claim C8: missing structural fields -/

theorem processRoot_no_commits (snaps : SnapMap) (acc : CompMap × List CommitInfo)
    (root : RawRoot) (h : root.commitData = none) : processRoot snaps acc root = acc := by
  unfold processRoot
  rw [h]
  rfl

theorem analyze_total_commits (t : RawTrace) :
    (analyze t).1.total_commits = (analyzeComponents t).2.length := by
  simp [analyze, sortQ]

/-- C8: an input document lacking `dataForRoots` analyses to
`total_commits = 0`, and so does any document whose roots all lack
`commitData` — the missing fields default to empty collections, and the
analysis (a total function in this embedding) raises no exception. -/
theorem C8_missing_fields :
    (analyze { dataForRoots := none }).1.total_commits = 0 ∧
    ∀ roots : List RawRoot, (∀ r ∈ roots, r.commitData = none) →
      (analyze { dataForRoots := some roots }).1.total_commits = 0 := by
  constructor
  · rw [analyze_total_commits]
    rfl
  · intro roots h
    rw [analyze_total_commits]
    have h2 : (analyzeComponents { dataForRoots := some roots }).2 = [] := by
      unfold analyzeComponents
      refine foldl_preserve (fun (a : CompMap × List CommitInfo) => a.2 = []) _ roots
        ([], []) rfl ?_
      intro a r hr hp
      rw [processRoot_no_commits _ a r (h r hr)]
      exact hp
    rw [h2]
    rfl

/-- C8, witness: a one-root document with both `snapshots` and `commitData`
absent. -/
theorem C8_missing_fields_witness :
    (analyze { dataForRoots := some [{ snapshots := none, commitData := none }] }).1.total_commits
      = 0 := by
  refine C8_missing_fields.2 [{ snapshots := none, commitData := none }] ?_
  intro r hr
  rcases List.mem_singleton.mp hr with rfl
  rfl

/-! ## Claim C10: the cluster scan crosses root boundaries -/

/-- C10: analysing `traceTwoRoots` — root 1 contributing commits with
timestamps 1, 2, 3 and durations 5, 20, 30 (per-root indices 0, 1, 2), root 2
contributing the single commit with timestamp 100 and duration 16 (per-root
index 0) — emits one cluster containing the last two commits of root 1
followed by root 2's commit (member timestamps 2, 3, 100, so the cluster
spans both roots), whose `end_commit` (0, root 2's per-root index) is
strictly smaller than its `start_commit` (1): the scan runs over the
concatenated commit sequence without resetting at the root boundary, and the
recorded endpoints are per-root indices. -/
theorem C10_cross_root_cluster :
    (analyze traceTwoRoots).2.2.map (fun c => (c.index, c.timestamp, c.duration))
      = [(0, 1, 5), (1, 2, 20), (2, 3, 30), (0, 100, 16)] ∧
    (analyze traceTwoRoots).1.clusters
      = [{ start_commit := 1, end_commit := 0, size := 3, total_ms := 66, avg_ms := 22 }] ∧
    (findClusters (analyze traceTwoRoots).2.2 []).map
        (fun cl => cl.map (fun c => (c.index, c.timestamp)))
      = [[(1, 2), (2, 3), (0, 100)]] ∧
    (analyze traceTwoRoots).1.clusters.headI.end_commit
      < (analyze traceTwoRoots).1.clusters.headI.start_commit := by
  refine ⟨by decide, by decide, by decide, by decide⟩

/-! ## Claim C5: nearest-rank percentiles are monotone -/

theorem le_foldl_max (xs : List ℚ) (a : ℚ) : a ≤ xs.foldl max a := by
  induction xs generalizing a with
  | nil => exact le_refl a
  | cons x xs ih => exact le_trans (le_max_left a x) (ih (max a x))

theorem mem_le_foldl_max (xs : List ℚ) (a x : ℚ) : x ∈ xs → x ≤ xs.foldl max a := by
  induction xs generalizing a with
  | nil =>
      intro hx
      simp at hx
  | cons y ys ih =>
      intro hx
      rcases List.mem_cons.mp hx with rfl | hmem
      · exact le_trans (le_max_right a x) (le_foldl_max ys (max a x))
      · exact ih (max a y) hmem

theorem le_pymax (l : List ℚ) (x : ℚ) (hx : x ∈ l) : x ≤ pymax l := by
  cases l with
  | nil => simp at hx
  | cons y ys =>
      rcases List.mem_cons.mp hx with rfl | hmem
      · exact le_foldl_max ys x
      · exact mem_le_foldl_max ys y x hmem

theorem sorted_getD_mono (l : List ℚ) (hs : l.Sorted (fun a b => a ≤ b)) (i j : Nat)
    (hij : i ≤ j) (hj : j < l.length) : l.getD i 0 ≤ l.getD j 0 := by
  have hi : i < l.length := lt_of_le_of_lt hij hj
  have h2 : l.get ⟨i, hi⟩ ≤ l.get ⟨j, hj⟩ :=
    hs.rel_get_of_le (Fin.mk_le_mk.mpr hij)
  rw [List.getD_eq_getElem?_getD, List.getD_eq_getElem?_getD,
    List.getElem?_eq_getElem hi, List.getElem?_eq_getElem hj]
  simpa using h2

theorem percentile_mono (l : List ℚ) (hs : l.Sorted (fun a b => a ≤ b)) (hne : l ≠ [])
    (p q : Nat) (hpq : p ≤ q) : percentile l p ≤ percentile l q := by
  have hlen : 0 < l.length := List.length_pos.mpr hne
  unfold percentile
  rw [if_neg (by omega), if_neg (by omega)]
  apply sorted_getD_mono l hs
  · exact min_le_min (Nat.div_le_div_right (Nat.mul_le_mul_right _ hpq)) (le_refl _)
  · have := min_le_right (q * l.length / 100) (l.length - 1)
    omega

theorem percentile_le_pymax (l : List ℚ) (hne : l ≠ []) (p : Nat) :
    percentile l p ≤ pymax l := by
  have hlen : 0 < l.length := List.length_pos.mpr hne
  unfold percentile
  rw [if_neg (by omega)]
  apply le_pymax
  have hidx : min (p * l.length / 100) (l.length - 1) < l.length := by
    have := min_le_right (p * l.length / 100) (l.length - 1)
    omega
  rw [List.getD_eq_getElem?_getD, List.getElem?_eq_getElem hidx]
  simp only [Option.getD_some]
  exact List.getElem_mem hidx

/-- C5: percentile over the ascending-sorted duration list is the element at
nearest-rank index `⌊p·n/100⌋` clamped to `[0, n−1]` (no linear
interpolation), and consequently, for any non-empty duration series,
`Percentile(50) ≤ Percentile(95) ≤ Percentile(99) ≤ max(durations)`. -/
theorem C5_percentile_chain (durations : List ℚ) (hne : durations ≠ []) :
    (∀ p : Nat, percentile (sortQ durations) p =
      (sortQ durations).getD
        (min (p * (sortQ durations).length / 100) ((sortQ durations).length - 1)) 0) ∧
    percentile (sortQ durations) 50 ≤ percentile (sortQ durations) 95 ∧
    percentile (sortQ durations) 95 ≤ percentile (sortQ durations) 99 ∧
    percentile (sortQ durations) 99 ≤ pymax (sortQ durations) := by
  have hlen : (sortQ durations).length = durations.length := by
    simp [sortQ]
  have hne2 : sortQ durations ≠ [] := by
    intro h
    apply hne
    have h2 := congrArg List.length h
    rw [hlen] at h2
    exact List.length_eq_zero.mp h2
  have hs : (sortQ durations).Sorted (fun a b => a ≤ b) := List.sorted_mergeSort' durations
  refine ⟨?_, percentile_mono _ hs hne2 50 95 (by omega),
    percentile_mono _ hs hne2 95 99 (by omega), percentile_le_pymax _ hne2 99⟩
  intro p
  unfold percentile
  rw [if_neg ?_]
  have hlen2 : 0 < (sortQ durations).length := List.length_pos.mpr hne2
  omega

/-- C5, witness: the chain evaluated on the series `[3, 1, 2]`. -/
theorem C5_percentile_chain_witness :
    percentile (sortQ [3, 1, 2]) 50 ≤ percentile (sortQ [3, 1, 2]) 95 ∧
    percentile (sortQ [3, 1, 2]) 95 ≤ percentile (sortQ [3, 1, 2]) 99 ∧
    percentile (sortQ [3, 1, 2]) 99 ≤ pymax (sortQ [3, 1, 2]) := by
  have h := C5_percentile_chain [3, 1, 2] (by decide)
  exact ⟨h.2.1, h.2.2.1, h.2.2.2⟩

/-! ## Claim C6: cluster size, membership threshold and maximality -/

theorem getLast?_append_cons_cases {α : Type} (xs : List α) (c y : α) (ys : List α)
    (h : (xs ++ c :: ys).getLast? = some y) : (ys = [] ∧ y = c) ∨ ys.getLast? = some y := by
  rw [List.getLast?_append_cons] at h
  cases ys with
  | nil =>
      left
      refine ⟨rfl, ?_⟩
      simp only [List.getLast?_singleton] at h
      exact (Option.some.inj h).symm
  | cons z zs =>
      right
      rwa [List.getLast?_cons_cons] at h

/-- Structure of every emitted cluster: given an all-qualifying current run,
each cluster the scan emits has length ≥ 3, consists of commits above the
10 ms threshold, and occurs as a contiguous segment whose neighbouring
commits (when they exist) fail the threshold. -/
theorem findClusters_spec :
    ∀ (l cur : List CommitInfo), (∀ x ∈ cur, 10 < x.duration) →
      ∀ cl ∈ findClusters l cur,
        3 ≤ cl.length ∧ (∀ x ∈ cl, 10 < x.duration) ∧
        ∃ pre post, cur ++ l = pre ++ (cl ++ post) ∧
          (∀ y, pre.getLast? = some y → ¬ 10 < y.duration) ∧
          (∀ y, post.head? = some y → ¬ 10 < y.duration) := by
  intro l
  induction l with
  | nil =>
      intro cur hcur cl hcl
      unfold findClusters at hcl
      by_cases h3 : 3 ≤ cur.length
      · rw [if_pos h3] at hcl
        rcases List.mem_singleton.mp hcl with rfl
        refine ⟨h3, hcur, [], [], by simp, ?_, ?_⟩
        · intro y hy
          simp at hy
        · intro y hy
          simp at hy
      · rw [if_neg h3] at hcl
        simp at hcl
  | cons c rest ih =>
      intro cur hcur cl hcl
      unfold findClusters at hcl
      by_cases hc : 10 < c.duration
      · rw [if_pos hc] at hcl
        have hcur2 : ∀ x ∈ cur ++ [c], 10 < x.duration := by
          intro x hx
          rcases List.mem_append.mp hx with h | h
          · exact hcur x h
          · rcases List.mem_singleton.mp h with rfl
            exact hc
        obtain ⟨hlen, hall, pre, post, heq, hpre, hpost⟩ := ih (cur ++ [c]) hcur2 cl hcl
        refine ⟨hlen, hall, pre, post, ?_, hpre, hpost⟩
        rw [← heq]
        simp
      · rw [if_neg hc] at hcl
        rcases List.mem_append.mp hcl with hemit | hrec
        · by_cases h3 : 3 ≤ cur.length
          · rw [if_pos h3] at hemit
            rcases List.mem_singleton.mp hemit with rfl
            refine ⟨h3, hcur, [], c :: rest, by simp, ?_, ?_⟩
            · intro y hy
              simp at hy
            · intro y hy
              simp only [List.head?_cons] at hy
              rw [← Option.some.inj hy]
              exact hc
          · rw [if_neg h3] at hemit
            simp at hemit
        · obtain ⟨hlen, hall, pre, post, heq, hpre, hpost⟩ :=
            ih [] (by intro x hx; simp at hx) cl hrec
          simp only [List.nil_append] at heq
          refine ⟨hlen, hall, cur ++ c :: pre, post, ?_, ?_, hpost⟩
          · rw [heq]
            simp
          · intro y hy
            rcases getLast?_append_cons_cases cur c y pre hy with ⟨_, rfl⟩ | hlast
            · exact hc
            · exact hpre y hlast

/-- C6: every emitted cluster has at least three commits, every member commit
exceeds 10 ms, the `size` field of every emitted cluster record is ≥ 3, and
clusters are maximal: each one is a contiguous segment of the commit sequence
whose adjacent commit on either side — when one exists — does not exceed
10 ms (the trailing run is flushed by the same ≥ 3 rule, which the
decomposition with an empty right context exhibits). -/
theorem C6_cluster_properties (t : RawTrace) :
    (∀ r ∈ (analyze t).1.clusters, 3 ≤ r.size) ∧
    ∀ cl ∈ findClusters (analyze t).2.2 [],
      3 ≤ cl.length ∧ (∀ c ∈ cl, 10 < c.duration) ∧
      ∃ pre post, (analyze t).2.2 = pre ++ (cl ++ post) ∧
        (∀ y, pre.getLast? = some y → ¬ 10 < y.duration) ∧
        (∀ y, post.head? = some y → ¬ 10 < y.duration) := by
  have hclusters : (analyze t).1.clusters =
      (findClusters (analyze t).2.2 []).map mkCluster := rfl
  constructor
  · intro r hr
    rw [hclusters] at hr
    rcases List.mem_map.mp hr with ⟨cl, hcl, rfl⟩
    have h := findClusters_spec (analyze t).2.2 [] (by intro x hx; simp at hx) cl hcl
    show 3 ≤ cl.length
    exact h.1
  · intro cl hcl
    obtain ⟨h1, h2, pre, post, heq, hpre, hpost⟩ :=
      findClusters_spec (analyze t).2.2 [] (by intro x hx; simp at hx) cl hcl
    simp only [List.nil_append] at heq
    exact ⟨h1, h2, pre, post, heq, hpre, hpost⟩

/-- C6, witness: the single cluster of `traceCluster` (all three commits
exceed 10 ms), with the threshold checked at its first commit and the size
bound checked on the emitted record. -/
theorem C6_cluster_properties_witness :
    3 ≤ (mkCluster clusterCommits).size ∧ 3 ≤ clusterCommits.length ∧
    10 < ({ index := 0, timestamp := 100, duration := 17, priority_level := "unknown"
            num_components := 2,
            top_components := [("List", 12), ("Button", 5)] } : CommitInfo).duration := by
  have h := C6_cluster_properties traceCluster
  have h1 := h.1 (mkCluster clusterCommits) (by decide)
  have h2 := h.2 clusterCommits (by decide)
  exact ⟨h1, h2.1, h2.2.1 _ (by decide)⟩

/-! ## Claim C4: per-commit duration sum and positive-only updates -/

theorem process_self_cons (snaps : SnapMap) (st : SelfState) (p : Int × ℚ)
    (rest : List (Int × ℚ)) :
    process_self snaps st (p :: rest) = process_self snaps (selfStep snaps st p) rest := rfl

theorem selfStep_duration (snaps : SnapMap) (st : SelfState) (p : Int × ℚ) :
    (selfStep snaps st p).duration = st.duration + p.2 := by
  by_cases hd : 0 < p.2
  · rw [selfStep_pos snaps st p hd]
  · rw [selfStep_nonpos snaps st p hd]

theorem process_self_duration (snaps : SnapMap) :
    ∀ (pairs : List (Int × ℚ)) (st : SelfState),
      (process_self snaps st pairs).duration = st.duration + (pairs.map Prod.snd).sum := by
  intro pairs
  induction pairs with
  | nil =>
      intro st
      simp [process_self]
  | cons p rest ih =>
      intro st
      rw [process_self_cons, ih, selfStep_duration]
      simp [add_assoc]

theorem process_self_cands (snaps : SnapMap) :
    ∀ (pairs : List (Int × ℚ)) (st : SelfState),
      (process_self snaps st pairs).cands.map Prod.snd =
        st.cands.map Prod.snd ++ (pairs.filter (fun p => decide (0 < p.2))).map Prod.snd := by
  intro pairs
  induction pairs with
  | nil =>
      intro st
      simp [process_self]
  | cons p rest ih =>
      intro st
      rw [process_self_cons, ih]
      by_cases hd : 0 < p.2
      · rw [selfStep_pos snaps st p hd]
        simp [List.filter_cons, hd]
      · rw [selfStep_nonpos snaps st p hd]
        simp [List.filter_cons, hd]

theorem baseOf_name (snaps : SnapMap) (m : CompMap) (fid : Int)
    (h : NameConsistent snaps m) : (baseOf snaps m fid).name = resolvedName snaps fid := by
  unfold baseOf
  cases hc : alookup m fid with
  | none => simp [mkStats]
  | some c => simpa using h fid c hc

theorem nameConsistent_selfStep (snaps : SnapMap) (st : SelfState) (p : Int × ℚ)
    (h : NameConsistent snaps st.comps) : NameConsistent snaps (selfStep snaps st p).comps := by
  have hbase := baseOf_name snaps st.comps p.1 h
  intro fid c hc
  by_cases hfid : fid = p.1
  · subst hfid
    by_cases hd : 0 < p.2
    · rw [selfStep_pos snaps st p hd, alookup_ainsert_self] at hc
      rw [← Option.some.inj hc]
      exact hbase
    · rw [selfStep_nonpos snaps st p hd, alookup_ainsert_self] at hc
      rw [← Option.some.inj hc]
      exact hbase
  · by_cases hd : 0 < p.2
    · rw [selfStep_pos snaps st p hd, alookup_ainsert_ne _ _ _ _ hfid] at hc
      exact h fid c hc
    · rw [selfStep_nonpos snaps st p hd, alookup_ainsert_ne _ _ _ _ hfid] at hc
      exact h fid c hc

theorem process_self_cands_named (snaps : SnapMap) :
    ∀ (pairs : List (Int × ℚ)) (st : SelfState), NameConsistent snaps st.comps →
      (process_self snaps st pairs).cands =
        st.cands ++ (pairs.filter (fun p => decide (0 < p.2))).map
          (fun p => (resolvedName snaps p.1, p.2)) := by
  intro pairs
  induction pairs with
  | nil =>
      intro st _
      simp [process_self]
  | cons p rest ih =>
      intro st h
      rw [process_self_cons, ih _ (nameConsistent_selfStep snaps st p h)]
      have hbase := baseOf_name snaps st.comps p.1 h
      by_cases hd : 0 < p.2
      · rw [selfStep_pos snaps st p hd]
        simp [List.filter_cons, hd, hbase]
      · rw [selfStep_nonpos snaps st p hd]
        simp [List.filter_cons, hd]

theorem process_self_triple (snaps : SnapMap) :
    ∀ (pairs : List (Int × ℚ)) (st : SelfState) (fid : Int) (c' : ComponentStats),
      alookup (process_self snaps st pairs).comps fid = some c' →
      selfTriple c' =
        ((baseOf snaps st.comps fid).render_count + (posOf pairs fid).length,
         (baseOf snaps st.comps fid).total_self_time
           + ((posOf pairs fid).map Prod.snd).sum,
         (posOf pairs fid).foldl (fun m q => max m q.2)
           (baseOf snaps st.comps fid).max_self_time) := by
  intro pairs
  induction pairs with
  | nil =>
      intro st fid c' hc
      simp only [process_self, List.foldl_nil] at hc
      simp [posOf, selfTriple, baseOf, hc]
  | cons p rest ih =>
      intro st fid c' hc
      rw [process_self_cons] at hc
      have h2 := ih (selfStep snaps st p) fid c' hc
      by_cases hfid : p.1 = fid
      · subst hfid
        by_cases hd : 0 < p.2
        · have hb : baseOf snaps (selfStep snaps st p).comps p.1 =
              { baseOf snaps st.comps p.1 with
                  render_count := (baseOf snaps st.comps p.1).render_count + 1
                  total_self_time := (baseOf snaps st.comps p.1).total_self_time + p.2
                  max_self_time := max (baseOf snaps st.comps p.1).max_self_time p.2 } := by
            rw [selfStep_pos snaps st p hd]
            unfold baseOf
            rw [alookup_ainsert_self]
            rfl
          rw [hb] at h2
          have hpos : posOf (p :: rest) p.1 = p :: posOf rest p.1 := by
            simp [posOf, List.filter_cons, hd]
          rw [hpos, h2]
          simp only [Prod.mk.injEq]
          refine ⟨?_, ?_, ?_⟩
          · simp only [List.length_cons]
            omega
          · simp only [List.map_cons, List.sum_cons]
            ring
          · rfl
        · have hb : baseOf snaps (selfStep snaps st p).comps p.1 =
              baseOf snaps st.comps p.1 := by
            rw [selfStep_nonpos snaps st p hd]
            unfold baseOf
            rw [alookup_ainsert_self]
            rfl
          have hpos : posOf (p :: rest) p.1 = posOf rest p.1 := by
            simp [posOf, List.filter_cons, hd]
          rw [hb] at h2
          rw [hpos]
          exact h2
      · have hne : fid ≠ p.1 := fun h => hfid h.symm
        have hb : baseOf snaps (selfStep snaps st p).comps fid =
            baseOf snaps st.comps fid := by
          by_cases hd : 0 < p.2
          · rw [selfStep_pos snaps st p hd]
            unfold baseOf
            rw [alookup_ainsert_ne _ _ _ _ hne]
          · rw [selfStep_nonpos snaps st p hd]
            unfold baseOf
            rw [alookup_ainsert_ne _ _ _ _ hne]
        have hpos : posOf (p :: rest) fid = posOf rest fid := by
          simp [posOf, List.filter_cons, hfid]
        rw [hb] at h2
        rw [hpos]
        exact h2

/-- C4: for every commit, the emitted `CommitInfo` duration is the sum of all
values of the normalized `fiberSelfDurations` map (zero and negative values
included), the top-components candidate list records exactly the entries with
strictly positive duration — as `(name, duration)` pairs, the name being the
snapshot-resolved one — and a component's `render_count` / `total_self_time` /
`max_self_time` change only through those strictly positive entries. -/
theorem C4_commit_updates (snaps : SnapMap) (comps : CompMap) (ci : Nat)
    (commit : RawCommit) :
    (processCommit snaps comps ci commit).2.duration
      = ((selfDurationsOf commit).map Prod.snd).sum ∧
    (process_self snaps { comps := comps, duration := 0, cands := [] }
        (selfDurationsOf commit)).cands.map Prod.snd
      = ((selfDurationsOf commit).filter (fun p => decide (0 < p.2))).map Prod.snd ∧
    (NameConsistent snaps comps →
      (process_self snaps { comps := comps, duration := 0, cands := [] }
          (selfDurationsOf commit)).cands
        = ((selfDurationsOf commit).filter (fun p => decide (0 < p.2))).map
            (fun p => (resolvedName snaps p.1, p.2))) ∧
    ∀ fid c',
      alookup (process_self snaps { comps := comps, duration := 0, cands := [] }
          (selfDurationsOf commit)).comps fid = some c' →
      selfTriple c' =
        ((baseOf snaps comps fid).render_count
           + (posOf (selfDurationsOf commit) fid).length,
         (baseOf snaps comps fid).total_self_time
           + ((posOf (selfDurationsOf commit) fid).map Prod.snd).sum,
         (posOf (selfDurationsOf commit) fid).foldl (fun m q => max m q.2)
           (baseOf snaps comps fid).max_self_time) := by
  refine ⟨?_, ?_, ?_, ?_⟩
  · show (process_self snaps { comps := comps, duration := 0, cands := [] }
        (selfDurationsOf commit)).duration = _
    rw [process_self_duration]
    simp
  · rw [process_self_cands]
    simp
  · intro h
    rw [process_self_cands_named snaps _ _ h]
    simp
  · intro fid c' hc
    exact process_self_triple snaps _ _ fid c' hc

/-- C4, witness: processing `commitSelfW` (values 3, −1, 0) from an empty
table: the commit duration is 2, the only candidate is `("Unknown#1", 3)`,
and fiber 1 ends with render count 1, total self time 3 and max self time 3. -/
theorem C4_commit_updates_witness :
    (processCommit [] [] 0 commitSelfW).2.duration = 2 ∧
    (process_self [] { comps := [], duration := 0, cands := [] }
        (selfDurationsOf commitSelfW)).cands = [("Unknown#1", 3)] ∧
    selfTriple cW1 = (1, 3, 3) := by
  have h := C4_commit_updates [] [] 0 commitSelfW
  refine ⟨?_, ?_, ?_⟩
  · rw [h.1]
    decide
  · rw [h.2.2.1 (fun fid c hc => Option.noConfusion hc)]
    decide
  · have h4 := h.2.2.2 1 cW1 (by decide)
    rw [h4]
    decide

end Profiling
